import Mathlib

/-
Verification of the browser-resident file vault's storage engine
(StorageManager, IndexedDBBackend, LocalStorageBackend).

The JavaScript source is shallowly embedded: JS objects become structures,
the two object stores of IndexedDB and the two localStorage keys become
association lists (JS object key order = insertion order, which the lists
preserve), byte payloads become `List Nat`, promise rejection becomes
`Except String`, and host oracles that the code merely consumes (canvas
re-encoding, `navigator.storage.estimate`, generated ids and timestamps)
become explicit parameters.
-/

/-- A binary payload, one `Nat` per byte. -/
abbrev Bytes := List Nat

/-- A JS `File`: `name`, MIME `type`, and content bytes.  The JS `size`
attribute always equals the byte length of the content, so it is a derived
field here. -/
structure JSFile where
  name : String
  type : String
  data : Bytes
  deriving DecidableEq

/-- The JS `file.size` attribute: the byte length of the payload. -/
def JSFile.size (f : JSFile) : Nat := f.data.length

/-- The optional `intelligentAnalysis` object that callers may place in a
file's metadata; `getUserFiles` reads its `filename`, `mainType` and `size`
fields through optional chaining. -/
structure IAInfo where
  filename : Option String
  mainType : Option String
  size : Option Nat
  deriving DecidableEq

/-- Caller-supplied metadata mapping.  The fields the storage engine reads
are modelled explicitly (`intelligentAnalysis`, `description`,
`jsonFormat`); all other keys are opaque string pairs in `rest`. -/
structure ExtraMeta where
  intelligentAnalysis : Option IAInfo
  description : Option String
  jsonFormat : Option String
  rest : List (String × String)
  deriving DecidableEq

/-- The metadata object the manager hands to a backend in
`StorageManager.storeFile`: the caller's metadata spread together with
`originalSize`, `compressed` and `directory`. -/
structure MgrMeta where
  extra : ExtraMeta
  originalSize : Nat
  compressed : Bool
  directory : String
  deriving DecidableEq

/-- The metadata record a backend persists: the manager's metadata spread
together with the backend-added `filename`, `size`, `filetype` keys
(`{...metadata, filename: file.name, size: file.size, filetype: file.type}`). -/
structure MetaMap where
  mgr : MgrMeta
  filename : String
  size : Nat
  filetype : String
  deriving DecidableEq

/-- JS `a || b` for an optionally-present string: `undefined` and the empty
string are falsy and fall through to `b`. -/
def jsOrS (x : Option String) (y : String) : String :=
  match x with
  | some s => if s == "" then y else s
  | none => y

/-- JS `a || b` for an optionally-present number: `undefined` and `0` are
falsy and fall through to `b`. -/
def jsOrN (x : Option Nat) (y : Nat) : Nat :=
  match x with
  | some n => if n == 0 then y else n
  | none => y

/-- Whether the character list `t` starts the character list `s`. -/
def listStarts : List Char → List Char → Bool
  | _, [] => true
  | [], _ :: _ => false
  | a :: as, b :: bs => a == b && listStarts as bs

/-- Whether `t` occurs somewhere in `s` (JS `String.prototype.includes`). -/
def listHasInfix : List Char → List Char → Bool
  | [], t => t.isEmpty
  | s@(_ :: rest), t => listStarts s t || listHasInfix rest t

/-- JS `s.includes(t)`. -/
def strIncludes (s t : String) : Bool := listHasInfix s.toList t.toList

/-- JS `s.startsWith(t)`. -/
def strStarts (s t : String) : Bool := listStarts s.toList t.toList

/-- Models `StorageManager.determineDirectory` (source lines 98–120): pick a
directory label from the category string and the `jsonFormat` metadata key. -/
def determineDirectory (category : String) (meta : ExtraMeta) : String :=
  if strIncludes category "JSON" then
    match meta.jsonFormat with
    | some "sql" => "/json-sql/"
    | some "nosql" => "/json-nosql/"
    | _ => "/json/"
  else if strIncludes category "MEDIA" then
    if strIncludes category "IMAGE" then "/media/images/"
    else if strIncludes category "VIDEO" then "/media/videos/"
    else if strIncludes category "AUDIO" then "/media/audio/"
    else "/media/"
  else "/files/"

/-- Models `StorageManager.compressImage` (source lines 122–168).  The host's
canvas re-encode is the oracle `enc`: `some blob` models `canvas.toBlob`
delivering a blob, `none` models both a null blob and an image-load failure
(`img.onerror`), each of which leaves the original file in use.  The
compressed result is accepted only when strictly smaller
(`blob.size < file.size`); it keeps the file name and gets MIME type
`image/jpeg`. -/
def compressImage (enc : JSFile → Option Bytes) (file : JSFile) : JSFile :=
  match enc file with
  | some blob =>
      if blob.length < file.size then
        { name := file.name, type := "image/jpeg", data := blob }
      else file
  | none => file

/-- The image-processing step at the top of `StorageManager.storeFile`
(source lines 73–83): images strictly larger than 500 KiB go through
`compressImage`; everything else is passed along unchanged.  A compression
exception is caught and also yields the original, which coincides with the
`enc _ = none` case of `compressImage`. -/
def processedForStore (enc : JSFile → Option Bytes) (file : JSFile) : JSFile :=
  if strStarts file.type "image/" ∧ 500 * 1024 < file.size then
    compressImage enc file
  else file

/-- The `navigator.storage.estimate()` result as normalized by
`checkStorageQuota` (source lines 281–298): `usage` and `quota` with the
`|| 0` defaults applied. -/
structure QuotaInfo where
  usage : Nat
  quota : Nat
  deriving DecidableEq

/-- The derived `quotaInfo.available = estimate.quota - estimate.usage`; an `Int`
because JS subtraction can go negative. -/
def QuotaInfo.available (q : QuotaInfo) : Int := (q.quota : Int) - (q.usage : Int)

/-- Result shape of `StorageManager.canStoreFile`. -/
structure AdmitResult where
  canStore : Bool
  reason : Option String
  deriving DecidableEq

/-- The 10 MB safety margin of `canStoreFile` (source line 319). -/
def safetyMargin : Nat := 10 * 1024 * 1024

/-- Models `StorageManager.canStoreFile` (source lines 300–330).  `quotaInfo` is
the result of `checkStorageQuota`: `none` when the host cannot report quota,
in which case the attempt is allowed.  Otherwise the file is admitted
exactly when `available ≥ fileSize + safetyMargin`.  The JS reason string
interpolates host-formatted sizes; its exact text is host formatting, so the
model keeps its fixed head. -/
def canStoreFile (fileSize : Nat) (quotaInfo : Option QuotaInfo) : AdmitResult :=
  match quotaInfo with
  | none => { canStore := true, reason := none }
  | some q =>
      let requiredSpace : Int := (fileSize : Int) + (safetyMargin : Int)
      if q.available < requiredSpace then
        { canStore := false, reason := some "Insufficient storage." }
      else { canStore := true, reason := none }

/-- The two storage backends, in the manager's preference order. -/
inductive BackendRef where
  | idb
  | ls
  deriving DecidableEq

/-- Models `StorageManager.selectBackendForFile` (source lines 170–184), expressed
over the manager's backend array and the candidate file's size:
`backends[0]` if present; otherwise `backends[1]` if present and the file is
under 5 MB; otherwise `backends[0] || backends[1]`. -/
def selectBackendForFile (backends : List BackendRef) (size : Nat) : Option BackendRef :=
  match backends[0]? with
  | some b => some b
  | none =>
    match backends[1]? with
    | some b =>
        if size < 5 * 1024 * 1024 then some b
        else backends[0]? <|> backends[1]?
    | none => backends[0]? <|> backends[1]?

/-- A record in the IndexedDB `files` object store (keyPath `id`), as
assembled in `IndexedDBBackend.storeFile`. -/
structure IDBFileRec where
  id : String
  filename : String
  filetype : String
  size : Nat
  category : String
  uploadDate : String
  username : String
  data : Bytes
  deriving DecidableEq

/-- A record in the IndexedDB `metadata` object store (keyPath `id`). -/
structure IDBMetaRec where
  id : String
  username : String
  metadata : MetaMap
  category : String
  uploadDate : String
  deriving DecidableEq

/-- The IndexedDB database: its two object stores, as record lists in
insertion order. -/
structure IDBState where
  files : List IDBFileRec
  metadata : List IDBMetaRec
  deriving DecidableEq

/-- The object a backend `storeFile` resolves with.  IndexedDB resolves a
fresh summary whose `metadata` is the manager-supplied object and carries no
payload; localStorage resolves its full stored record (so `dataOpt` holds
the payload there) whose persisted metadata additionally nests the
backend-added keys. -/
structure StoreRes where
  id : String
  filename : String
  filetype : String
  size : Nat
  category : String
  uploadDate : String
  username : String
  metadata : MgrMeta
  storage : String
  dataOpt : Option Bytes
  deriving DecidableEq

/-- Models `IndexedDBBackend.storeFile` (source lines 381–473).  `fileId` stands
for `generateFileId()` and `now` for `new Date().toISOString()`.  Both
`add` requests run in one readwrite transaction: if the key already exists
in either store the transaction rejects and nothing is committed, else both
records are committed together.  Host `QuotaExceededError` rejections are
outside the model. -/
def idbStoreFile (fileId now username : String) (file : JSFile) (category : String)
    (mgrMeta : MgrMeta) (st : IDBState) : IDBState × Except String StoreRes :=
  if st.files.any (fun r => r.id == fileId) || st.metadata.any (fun r => r.id == fileId) then
    (st, Except.error "Failed to store file in IndexedDB: Key already exists in the object store.")
  else
    let fileData : IDBFileRec :=
      { id := fileId, filename := file.name, filetype := file.type, size := file.size,
        category := category, uploadDate := now, username := username, data := file.data }
    let metaRec : IDBMetaRec :=
      { id := fileId, username := username,
        metadata := { mgr := mgrMeta, filename := file.name, size := file.size,
                      filetype := file.type },
        category := category, uploadDate := now }
    ({ files := st.files ++ [fileData], metadata := st.metadata ++ [metaRec] },
     Except.ok { id := fileId, filename := file.name, filetype := file.type, size := file.size,
                 category := category, uploadDate := now, username := username,
                 metadata := mgrMeta, storage := "IndexedDB", dataOpt := none })

/-- The object `getFile` resolves with, uniformly for both backends.
IndexedDB spreads the persisted metadata's keys at the top level of the
result while localStorage nests them under `metadata`; both carry the same
`MetaMap`, kept here in the `metadata` field.  `blob` is the payload as
bytes (IndexedDB: the stored ArrayBuffer; localStorage: the decoded base64
data URL).  The `url` object-URL field is a host handle to `blob` and is
not modelled separately. -/
structure FileOut where
  id : String
  filename : String
  filetype : String
  size : Nat
  category : String
  uploadDate : String
  username : String
  metadata : MetaMap
  blob : Bytes
  deriving DecidableEq

/-- Models `IndexedDBBackend.getFile` (source lines 510–545).  The code first
rejects when the `files` record is absent; only then does it dereference
`metadata.metadata` with no null check, so an unpaired `files` record makes
the callback throw a `TypeError` instead of resolving. -/
def idbGetFile (fileId : String) (st : IDBState) : Except String FileOut :=
  match st.files.find? (fun r => r.id == fileId) with
  | none => Except.error "File not found in IndexedDB"
  | some fd =>
    match st.metadata.find? (fun r => r.id == fileId) with
    | none => Except.error "TypeError: cannot read properties of undefined"
    | some md =>
        Except.ok { id := fd.id, filename := md.metadata.filename,
                    filetype := md.metadata.filetype, size := md.metadata.size,
                    category := fd.category, uploadDate := fd.uploadDate,
                    username := fd.username, metadata := md.metadata, blob := fd.data }

/-- Models `IndexedDBBackend.deleteFile` (source lines 547–561): one readwrite
transaction deletes the id from both object stores.  IndexedDB's `delete`
succeeds whether or not the key exists, so the transaction completes and the
promise resolves `true` in every case. -/
def idbDeleteFile (fileId : String) (st : IDBState) : IDBState × Bool :=
  ({ files := st.files.filter (fun r => !(r.id == fileId)),
     metadata := st.metadata.filter (fun r => !(r.id == fileId)) }, true)

/-- The summary shape produced by both backends' `getUserFiles`. -/
structure FileSummary where
  id : String
  filename : String
  filetype : String
  size : Nat
  category : String
  uploadDate : String
  username : String
  metadata : MetaMap
  deriving DecidableEq

/-- The summary `IndexedDBBackend.getUserFiles` builds from one `metadata`
record (source lines 494–503), with the JS `||` fallback chains. -/
def idbSummary (item : IDBMetaRec) : FileSummary :=
  let ia := item.metadata.mgr.extra.intelligentAnalysis
  { id := item.id,
    filename := jsOrS (ia.bind (fun i => i.filename)) (jsOrS (some item.metadata.filename) "file"),
    filetype := jsOrS (ia.bind (fun i => i.mainType)) (jsOrS (some item.metadata.filetype) "unknown"),
    size := jsOrN (ia.bind (fun i => i.size)) (jsOrN (some item.metadata.size) 0),
    category := item.category, uploadDate := item.uploadDate, username := item.username,
    metadata := item.metadata }

/-- Models `IndexedDBBackend.getUserFiles` (source lines 484–508): all `metadata`
records of the user, mapped to summaries.  The `username` index's getAll is
modelled in record order. -/
def idbGetUserFiles (username : String) (st : IDBState) : Except String (List FileSummary) :=
  Except.ok ((st.metadata.filter (fun r => r.username == username)).map idbSummary)

/-- Per-backend stats shape (`getStats`). -/
structure BackendStats where
  type : String
  fileCount : Nat
  totalSize : Nat
  maxSize : Nat
  deriving DecidableEq

/-- The `IndexedDBBackend.maxSize` constant, 200 GB (source line 348). -/
def idbMaxSize : Nat := 200 * 1024 * 1024 * 1024

/-- Models `IndexedDBBackend.getStats` (source lines 563–573). -/
def idbGetStats (username : String) (st : IDBState) : BackendStats :=
  let files := (st.metadata.filter (fun r => r.username == username)).map idbSummary
  { type := "indexedDB", fileCount := files.length,
    totalSize := (files.map (fun f => f.size)).foldl (fun a b => a + b) 0,
    maxSize := idbMaxSize }

/-- A record stored in the `data_bhandaar_files` arrays by
`LocalStorageBackend.storeFile`.  The `data` field holds the payload; the
base64 data-URL encoding (`fileToBase64`) is injective and round-tripped by
`fetch(...).blob()` in `getFile`, so it is modelled as the raw bytes. -/
structure LSFileRec where
  id : String
  filename : String
  filetype : String
  size : Nat
  category : String
  uploadDate : String
  username : String
  metadata : MetaMap
  data : Bytes
  deriving DecidableEq

/-- An entry of the `data_bhandaar_file_index` object. -/
structure LSIndexEntry where
  username : String
  backend : String
  deriving DecidableEq

/-- The localStorage state: the parsed `data_bhandaar_files` object
(username → array of records) and the parsed `data_bhandaar_file_index`
object (fileId → entry), as association lists in JS key-insertion order. -/
structure LSState where
  files : List (String × List LSFileRec)
  index : List (String × LSIndexEntry)
  deriving DecidableEq

/-- Reads `files[username] || []` on the parsed files object. -/
def lsGetUserArr (st : LSState) (username : String) : List LSFileRec :=
  match st.files.find? (fun p => p.fst == username) with
  | some p => p.snd
  | none => []

/-- JS object assignment `obj[k] = v`: an existing key keeps its position
and gets the new value, a new key is appended. -/
def assocSet {α : Type} (l : List (String × α)) (k : String) (v : α) : List (String × α) :=
  if l.any (fun p => p.fst == k) then
    l.map (fun p => if p.fst == k then (k, v) else p)
  else l ++ [(k, v)]

/-- The `LocalStorageBackend.maxSize` constant, 10 MB (source line 583). -/
def lsMaxSize : Nat := 10 * 1024 * 1024

/-- The `LocalStorageBackend.maxFileSize` constant, 5 MB per file (source line 584). -/
def lsMaxFileSize : Nat := 5 * 1024 * 1024

/-- Models `LocalStorageBackend.storeFile` (source lines 599–634) together with
`saveToLocalStorage` (645–665).  A file strictly over `maxFileSize` is
rejected up front, before any record is built or written; otherwise the
record is appended to the owner's array and the id is indexed.  Host
`QuotaExceededError` on `setItem` is outside the model. -/
def lsStoreFile (fileId now username : String) (file : JSFile) (category : String)
    (mgrMeta : MgrMeta) (st : LSState) : LSState × Except String StoreRes :=
  if lsMaxFileSize < file.size then
    (st, Except.error "File too large for localStorage. Max: 5 MB")
  else
    let md : MetaMap :=
      { mgr := mgrMeta, filename := file.name, size := file.size, filetype := file.type }
    let recd : LSFileRec :=
      { id := fileId, filename := file.name, filetype := file.type, size := file.size,
        category := category, uploadDate := now, username := username,
        metadata := md, data := file.data }
    let st' : LSState :=
      { files := assocSet st.files username (lsGetUserArr st username ++ [recd]),
        index := assocSet st.index fileId { username := username, backend := "localStorage" } }
    (st', Except.ok { id := fileId, filename := file.name, filetype := file.type,
                      size := file.size, category := category, uploadDate := now,
                      username := username, metadata := mgrMeta, storage := "LocalStorage",
                      dataOpt := some file.data })

/-- Models `LocalStorageBackend.getFile` (source lines 684–710): resolve the id
through the index (its entry must name this backend), then find the record
in the owner's array; the returned object is the record with its payload
decoded back into a blob. -/
def lsGetFile (fileId : String) (st : LSState) : Except String FileOut :=
  match st.index.find? (fun p => p.fst == fileId) with
  | none => Except.error "File not found in localStorage"
  | some p =>
    if p.snd.backend == "localStorage" then
      match (lsGetUserArr st p.snd.username).find? (fun f => f.id == fileId) with
      | none => Except.error "File not found in localStorage"
      | some fd =>
          Except.ok { id := fd.id, filename := fd.filename, filetype := fd.filetype,
                      size := fd.size, category := fd.category, uploadDate := fd.uploadDate,
                      username := fd.username, metadata := fd.metadata, blob := fd.data }
    else Except.error "File not found in localStorage"

/-- Models `LocalStorageBackend.deleteFile` (source lines 712–734): an id absent
from the index (or indexed to another backend) throws; otherwise the record
is filtered out of the owner's array and the index key removed. -/
def lsDeleteFile (fileId : String) (st : LSState) : LSState × Except String Bool :=
  match st.index.find? (fun p => p.fst == fileId) with
  | none => (st, Except.error "File not found in localStorage")
  | some p =>
    if p.snd.backend == "localStorage" then
      let files' :=
        if st.files.any (fun q => q.fst == p.snd.username) then
          st.files.map (fun q =>
            if q.fst == p.snd.username then (q.fst, q.snd.filter (fun f => !(f.id == fileId)))
            else q)
        else st.files
      ({ files := files', index := st.index.filter (fun q => !(q.fst == fileId)) },
       Except.ok true)
    else (st, Except.error "File not found in localStorage")

/-- The summary `LocalStorageBackend.getUserFiles` builds from one record
(source lines 672–681), with its three-stage `||` fallback chains. -/
def lsSummary (f : LSFileRec) : FileSummary :=
  let ia := f.metadata.mgr.extra.intelligentAnalysis
  { id := f.id,
    filename := jsOrS (ia.bind (fun i => i.filename))
      (jsOrS (some f.metadata.filename) (jsOrS (some f.filename) "file")),
    filetype := jsOrS (ia.bind (fun i => i.mainType))
      (jsOrS (some f.metadata.filetype) (jsOrS (some f.filetype) "unknown")),
    size := jsOrN (ia.bind (fun i => i.size))
      (jsOrN (some f.metadata.size) (jsOrN (some f.size) 0)),
    category := f.category, uploadDate := f.uploadDate, username := f.username,
    metadata := f.metadata }

/-- Models `LocalStorageBackend.getUserFiles` (source lines 667–682). -/
def lsGetUserFiles (username : String) (st : LSState) : Except String (List FileSummary) :=
  Except.ok ((lsGetUserArr st username).map lsSummary)

/-- Models `LocalStorageBackend.getStats` (source lines 736–746). -/
def lsGetStats (username : String) (st : LSState) : BackendStats :=
  let files := (lsGetUserArr st username).map lsSummary
  { type := "localStorage", fileCount := files.length,
    totalSize := (files.map (fun f => f.size)).foldl (fun a b => a + b) 0,
    maxSize := lsMaxSize }

/-- The `StorageManager`'s state: which backends initialized (pushed onto
`this.backends` in preference order, IndexedDB first), plus each backend's
storage.  `initializeBackends` pushes IndexedDB when the host supports it
and localStorage when the host supports it. -/
structure ManagerState where
  hasIDB : Bool
  hasLS : Bool
  idb : IDBState
  ls : LSState
  deriving DecidableEq

/-- The manager's `this.backends` array. -/
def ManagerState.backends (m : ManagerState) : List BackendRef :=
  (if m.hasIDB then [BackendRef.idb] else []) ++ (if m.hasLS then [BackendRef.ls] else [])

/-- Dispatch `backend.getFile(fileId)`. -/
def backendGetFile (m : ManagerState) (b : BackendRef) (fileId : String) : Except String FileOut :=
  match b with
  | BackendRef.idb => idbGetFile fileId m.idb
  | BackendRef.ls => lsGetFile fileId m.ls

/-- The loop of `StorageManager.getFile` (source lines 208–220): probe
backends in array order, return the first backend that resolves, swallow
per-backend errors and continue; throw when every backend failed. -/
def managerGetFileLoop (m : ManagerState) (fileId : String) :
    List BackendRef → Except String FileOut
  | [] => Except.error "File not found in any storage backend"
  | b :: rest =>
    match backendGetFile m b fileId with
    | Except.ok f => Except.ok f
    | Except.error _ => managerGetFileLoop m fileId rest

/-- Models `StorageManager.getFile`. -/
def managerGetFile (m : ManagerState) (fileId : String) : Except String FileOut :=
  managerGetFileLoop m fileId m.backends

/-- Dispatch `backend.deleteFile(fileId)`, threading that backend's state. -/
def backendDeleteFile (m : ManagerState) (b : BackendRef) (fileId : String) :
    ManagerState × Except String Bool :=
  match b with
  | BackendRef.idb =>
    let r := idbDeleteFile fileId m.idb
    ({ m with idb := r.fst }, Except.ok r.snd)
  | BackendRef.ls =>
    let r := lsDeleteFile fileId m.ls
    ({ m with ls := r.fst }, r.snd)

/-- Whether an awaited backend call resolved (no exception thrown). -/
def exceptIsOk {α : Type} : Except String α → Bool
  | Except.ok _ => true
  | Except.error _ => false

/-- The loop of `StorageManager.deleteFile` (source lines 222–235): attempt
deletion on every backend; `deleted` becomes `true` when an attempt
resolves and is left alone when the attempt throws (the `catch`/`continue`). -/
def managerDeleteFileLoop (fileId : String) :
    ManagerState → Bool → List BackendRef → ManagerState × Bool
  | m, deleted, [] => (m, deleted)
  | m, deleted, b :: rest =>
    managerDeleteFileLoop fileId (backendDeleteFile m b fileId).fst
      (deleted || exceptIsOk (backendDeleteFile m b fileId).snd) rest

/-- Models `StorageManager.deleteFile`: `true` when at least one backend resolved. -/
def managerDeleteFile (m : ManagerState) (fileId : String) : ManagerState × Bool :=
  managerDeleteFileLoop fileId m false m.backends

/-- Dispatch `backend.getUserFiles(username)`. -/
def backendGetUserFiles (m : ManagerState) (b : BackendRef) (username : String) :
    Except String (List FileSummary) :=
  match b with
  | BackendRef.idb => idbGetUserFiles username m.idb
  | BackendRef.ls => lsGetUserFiles username m.ls

/-- The per-backend results of `getUserFiles`, concatenated in backend
preference order with per-backend errors swallowed (the `try`/`catch` of
source lines 191–204). -/
def allBackendFiles (m : ManagerState) (username : String) : List FileSummary :=
  m.backends.foldl (fun acc b =>
    match backendGetUserFiles m b username with
    | Except.ok fs => acc ++ fs
    | Except.error _ => acc) []

/-- The `seenFileIds` dedup of `StorageManager.getUserFiles` (source lines
186–206): walk the results in encounter order, keep a file only when its id
has not been seen.  The JS code threads one `Set` through the nested
backend/file loops, which visits exactly the concatenation
`allBackendFiles` in order. -/
def dedupById (seen : List String) : List FileSummary → List FileSummary
  | [] => []
  | f :: rest =>
    if f.id ∈ seen then dedupById seen rest
    else f :: dedupById (seen ++ [f.id]) rest

/-- Models `StorageManager.getUserFiles`. -/
def managerGetUserFiles (m : ManagerState) (username : String) : List FileSummary :=
  dedupById [] (allBackendFiles m username)

/-- Whether `isFreshId` holds: the candidate id occurs nowhere in either
backend (as `generateFileId`'s timestamp-plus-random ids are assumed to). -/
def isFreshId (m : ManagerState) (fileId : String) : Bool :=
  m.idb.files.all (fun r => !(r.id == fileId)) &&
  m.idb.metadata.all (fun r => !(r.id == fileId)) &&
  m.ls.index.all (fun p => !(p.fst == fileId)) &&
  m.ls.files.all (fun p => p.snd.all (fun f => !(f.id == fileId)))

/-- Models `StorageManager.storeFile` (source lines 72–96): compress oversized
images, derive the directory label, tag the metadata with `originalSize`,
`compressed` (the JS `processedFile !== file` identity test: the accepted
compressed file is a fresh object with strictly smaller payload, hence also
structurally distinct, while every other path returns `file` itself) and
`directory`, then delegate to the selected backend.  With no backend at all,
`backend.storeFile` is a property access on `undefined` and throws. -/
def managerStoreFile (enc : JSFile → Option Bytes) (fileId now username : String)
    (file : JSFile) (category : String) (extra : ExtraMeta) (m : ManagerState) :
    ManagerState × Except String StoreRes :=
  let processed := processedForStore enc file
  let mgrMeta : MgrMeta :=
    { extra := extra, originalSize := file.size,
      compressed := decide (processed ≠ file),
      directory := determineDirectory category extra }
  match selectBackendForFile m.backends processed.size with
  | none => (m, Except.error "TypeError: cannot read properties of undefined")
  | some BackendRef.idb =>
    let r := idbStoreFile fileId now username processed category mgrMeta m.idb
    ({ m with idb := r.fst }, r.snd)
  | some BackendRef.ls =>
    let r := lsStoreFile fileId now username processed category mgrMeta m.ls
    ({ m with ls := r.fst }, r.snd)

/-- Round the nonnegative rational `q` to one decimal digit the way
`Number.prototype.toFixed(1)` does: nearest multiple of 1/10, ties upward. -/
def toFixed1 (q : ℚ) : ℚ := (⌊q * 10 + 1 / 2⌋ : ℚ) / 10

/-- Result shape of `StorageManager.getStorageStats`.  `usedPercentage` is
kept as the rounded rational the JS string `"42.3"` denotes. -/
structure StorageStats where
  fileCount : Nat
  totalSize : Nat
  usedPercentage : ℚ
  categories : List String
  backends : List BackendStats
  deriving DecidableEq

/-- Models JS `[...new Set(xs)]`: distinct values in first-occurrence order. -/
def distinctStrings (seen : List String) : List String → List String
  | [] => []
  | s :: rest =>
    if s ∈ seen then distinctStrings seen rest
    else s :: distinctStrings (seen ++ [s]) rest

/-- Models `StorageManager.getStorageStats` (source lines 249–270):
`usedPercentage = Math.min(totalSize / (1024*1024*1024) * 100, 100).toFixed(1)`. -/
def managerGetStorageStats (m : ManagerState) (username : String) : StorageStats :=
  let files := managerGetUserFiles m username
  let totalSize := (files.map (fun f => f.size)).foldl (fun a b => a + b) 0
  { fileCount := files.length, totalSize := totalSize,
    usedPercentage := toFixed1 (min ((totalSize : ℚ) / (1024 * 1024 * 1024) * 100) 100),
    categories := distinctStrings [] (files.map (fun f => f.category)),
    backends := m.backends.map (fun b =>
      match b with
      | BackendRef.idb => idbGetStats username m.idb
      | BackendRef.ls => lsGetStats username m.ls) }

/-! ## Helper lemmas -/

theorem bool_eq_false {b : Bool} (h : ¬ b = true) : b = false := by
  cases b
  · rfl
  · exact absurd rfl h

theorem find?_cons_pos {α : Type} (p : α → Bool) (a : α) (l : List α) (h : p a = true) :
    (a :: l).find? p = some a := by
  simp [List.find?, h]

theorem find?_cons_neg {α : Type} (p : α → Bool) (a : α) (l : List α) (h : p a = false) :
    (a :: l).find? p = l.find? p := by
  simp [List.find?, h]

theorem find?_append_last {α : Type} (p : α → Bool) (l : List α) (x : α)
    (h : ∀ a ∈ l, p a = false) :
    (l ++ [x]).find? p = if p x then some x else none := by
  induction l with
  | nil =>
    cases hx : p x <;> simp [List.find?, hx]
  | cons a as ih =>
    rw [List.cons_append, find?_cons_neg p a _ (h a (by simp))]
    exact ih (fun b hb => h b (by simp [hb]))

theorem find?_map_set {α : Type} (l : List (String × α)) (k : String) (v : α)
    (h : l.any (fun p => p.fst == k) = true) :
    (l.map (fun p => if p.fst == k then (k, v) else p)).find? (fun p => p.fst == k) =
      some (k, v) := by
  induction l with
  | nil => simp at h
  | cons a as ih =>
    cases ha : (a.fst == k) with
    | true =>
      simp only [List.map_cons, if_pos ha]
      exact find?_cons_pos _ _ _ (by simp)
    | false =>
      have hif : (if (a.fst == k) = true then (k, v) else a) = a := if_neg (by simp [ha])
      simp only [List.map_cons, hif]
      rw [find?_cons_neg _ a _ ha]
      apply ih
      rcases List.any_eq_true.mp h with ⟨b, hb, hpb⟩
      rcases List.mem_cons.mp hb with hb' | hb'
      · rw [hb'] at hpb; rw [ha] at hpb; cases hpb
      · exact List.any_eq_true.mpr ⟨b, hb', hpb⟩

theorem assocSet_find {α : Type} (l : List (String × α)) (k : String) (v : α) :
    (assocSet l k v).find? (fun p => p.fst == k) = some (k, v) := by
  cases h : l.any (fun p => p.fst == k) with
  | true =>
    rw [assocSet, if_pos h]
    exact find?_map_set l k v h
  | false =>
    rw [assocSet, if_neg (by simp [h])]
    have hall : ∀ a ∈ l, (fun (p : String × α) => p.fst == k) a = false := by
      intro a ha
      exact bool_eq_false (List.any_eq_false.mp h a ha)
    rw [find?_append_last _ l (k, v) hall]
    simp

/-! ## C4: quota-aware admission control -/

/-- C4: `canStoreFile(candidateBytes)` admits exactly when quota information
is unavailable (fail-soft) or `availableBytes ≥ candidateBytes + 10 MiB`;
the boundary `availableBytes = candidateBytes + margin` admits (inclusive);
a denial carries a non-empty reason string. -/
theorem canStoreFile_admission (fileSize : Nat) (quotaInfo : Option QuotaInfo) :
    ((canStoreFile fileSize quotaInfo).canStore = true ↔
      (quotaInfo = none ∨ ∃ q, quotaInfo = some q ∧
        (fileSize : Int) + (10 * 1024 * 1024 : Int) ≤ q.available)) ∧
    (∀ q, quotaInfo = some q → q.available = (fileSize : Int) + 10 * 1024 * 1024 →
      (canStoreFile fileSize quotaInfo).canStore = true) ∧
    ((canStoreFile fileSize quotaInfo).canStore = false →
      ∃ r, (canStoreFile fileSize quotaInfo).reason = some r ∧ r ≠ "") := by
  refine ⟨?_, ?_, ?_⟩
  · cases quotaInfo with
    | none => simp [canStoreFile]
    | some q =>
      by_cases h : q.available < (fileSize : Int) + (safetyMargin : Nat)
      · simp only [canStoreFile, if_pos h]
        simp only [safetyMargin] at h
        constructor
        · intro hfalse; cases hfalse
        · rintro (hnone | ⟨q', hq', hle⟩)
          · cases hnone
          · cases hq'
            push_cast at h
            omega
      · constructor
        · intro _
          refine Or.inr ⟨q, rfl, ?_⟩
          simp only [safetyMargin] at h
          push_cast at h
          omega
        · intro _
          simp [canStoreFile, if_neg h]
  · rintro q rfl hb
    have h : ¬ q.available < (fileSize : Int) + (safetyMargin : Nat) := by
      simp only [safetyMargin]
      push_cast
      omega
    simp [canStoreFile, if_neg h]
  · cases quotaInfo with
    | none => simp [canStoreFile]
    | some q =>
      by_cases h : q.available < (fileSize : Int) + (safetyMargin : Nat)
      · intro _
        exact ⟨"Insufficient storage.", by simp [canStoreFile, if_pos h], by simp⟩
      · simp [canStoreFile, if_neg h]

/-- Witness for C4 at a concrete boundary input: no usage, a quota of
exactly 10 MiB, and a 0-byte candidate — admitted inclusively. -/
theorem canStoreFile_admission_witness :
    (canStoreFile 0 (some { usage := 0, quota := 10 * 1024 * 1024 })).canStore = true := by
  have h := (canStoreFile_admission 0 (some { usage := 0, quota := 10 * 1024 * 1024 })).2.1
  exact h _ rfl (by norm_num [QuotaInfo.available])

/-! ## C7: localStorage per-file cap -/

/-- C7: `LocalStorageBackend.storeFile` rejects a file strictly larger than
the 5 MB per-file cap up front, with its fixed error message and with the
stored state untouched — no record or index entry is written. -/
theorem lsStoreFile_rejects_oversized (fileId now username : String) (file : JSFile)
    (category : String) (mgrMeta : MgrMeta) (st : LSState)
    (h : lsMaxFileSize < file.size) :
    lsStoreFile fileId now username file category mgrMeta st =
      (st, Except.error "File too large for localStorage. Max: 5 MB") := by
  rw [lsStoreFile, if_pos h]

/-- Witness for C7: a file of 5 MiB + 1 bytes against an empty store. -/
theorem lsStoreFile_rejects_oversized_witness :
    lsStoreFile "f1" "t0" "u"
      { name := "big", type := "application/octet-stream",
        data := List.replicate (5 * 1024 * 1024 + 1) 0 } "DOCUMENT_PDF"
      { extra := { intelligentAnalysis := none, description := none, jsonFormat := none,
                   rest := [] },
        originalSize := 5 * 1024 * 1024 + 1, compressed := false, directory := "/files/" }
      { files := [], index := [] } =
      ({ files := [], index := [] },
       Except.error "File too large for localStorage. Max: 5 MB") :=
  lsStoreFile_rejects_oversized _ _ _ _ _ _ _
    (by show lsMaxFileSize < (List.replicate (5 * 1024 * 1024 + 1) (0:Nat)).length
        rw [List.length_replicate, lsMaxFileSize]
        norm_num)

/-! ## C2: backend selection -/

/-- C2 (the claimed 5 MB fallback guard is dead code): `selectBackendForFile`
always returns the first element of the backend array.  When IndexedDB is
unavailable, localStorage is `backends[0]`, so it is selected even for a
6 MB file, which exceeds its 5 MB per-file cap — contradicting the guarded
fallback the code's own comments (and the spec) describe. -/
theorem selectBackend_ignores_cap_when_idb_absent :
    (∀ (bs : List BackendRef) (size : Nat), selectBackendForFile bs size = bs[0]?) ∧
    (ManagerState.backends
      { hasIDB := false, hasLS := true, idb := { files := [], metadata := [] },
        ls := { files := [], index := [] } } = [BackendRef.ls]) ∧
    selectBackendForFile [BackendRef.ls] (6 * 1024 * 1024) = some BackendRef.ls ∧
    lsMaxFileSize < 6 * 1024 * 1024 := by
  refine ⟨fun bs size => ?_, rfl, rfl, by norm_num [lsMaxFileSize]⟩
  cases bs with
  | nil => simp [selectBackendForFile]
  | cons b rest => simp [selectBackendForFile]

/-! ## C3: fan-out delete -/

/-- One step of the delete loop. -/
theorem deleteLoop_cons (fileId : String) (m : ManagerState) (d : Bool) (b : BackendRef)
    (bs : List BackendRef) :
    managerDeleteFileLoop fileId m d (b :: bs) =
      managerDeleteFileLoop fileId (backendDeleteFile m b fileId).fst
        (d || exceptIsOk (backendDeleteFile m b fileId).snd) bs := rfl

/-- A delete pass that is already successful stays successful. -/
theorem deleteLoop_stays_true (fileId : String) (m : ManagerState) (bs : List BackendRef) :
    (managerDeleteFileLoop fileId m true bs).snd = true := by
  induction bs generalizing m with
  | nil => rfl
  | cons b rest ih =>
    rw [deleteLoop_cons]
    simp only [Bool.true_or]
    exact ih _

/-- Counterexample for C3 as stated: both backends present and completely
empty, so the id `"missing"` is absent from every backend, yet
`deleteFile` reports success (`true`) rather than a not-found failure —
IndexedDB's `delete` resolves even for absent keys. -/
theorem managerDeleteFile_absent_reports_success :
    (managerDeleteFile
      { hasIDB := true, hasLS := true, idb := { files := [], metadata := [] },
        ls := { files := [], index := [] } } "missing").snd = true ∧
    ({ hasIDB := true, hasLS := true, idb := { files := [], metadata := [] },
       ls := { files := [], index := [] } } : ManagerState).idb.files = [] ∧
    ({ hasIDB := true, hasLS := true, idb := { files := [], metadata := [] },
       ls := { files := [], index := [] } } : ManagerState).ls.index = [] :=
  ⟨rfl, rfl, rfl⟩

/-- Whether `LocalStorageBackend.deleteFile` would resolve for this id:
the index has the id and its entry names this backend. -/
def lsDeleteSucceeds (st : LSState) (fileId : String) : Bool :=
  match st.index.find? (fun p => p.fst == fileId) with
  | some p => p.snd.backend == "localStorage"
  | none => false

/-- The localStorage delete resolves exactly when `lsDeleteSucceeds`. -/
theorem lsDelete_ok_iff (st : LSState) (fileId : String) :
    exceptIsOk (lsDeleteFile fileId st).snd = lsDeleteSucceeds st fileId := by
  unfold lsDeleteFile lsDeleteSucceeds
  cases hfind : st.index.find? (fun p => p.fst == fileId) with
  | none => rfl
  | some p =>
    cases hbk : (p.snd.backend == "localStorage") with
    | true => simp [hbk, exceptIsOk]
    | false => simp [hbk, exceptIsOk]

/-- The IndexedDB delete always resolves `true`. -/
theorem idbDelete_ok (m : ManagerState) (fileId : String) :
    (backendDeleteFile m BackendRef.idb fileId).snd = Except.ok true := rfl

/-- C3 as amended: `deleteFile` attempts deletion on every backend and
reports success exactly when at least one backend's delete resolves.
IndexedDB's delete resolves for every id (absent keys included), so with
IndexedDB present the result is always success; the localStorage delete
resolves exactly when the id is in its index (entry naming that backend).
A not-found result (`false`, not a crash) occurs only when no backend
resolves. -/
theorem managerDeleteFile_success_characterization (m : ManagerState) (fileId : String) :
    (managerDeleteFile m fileId).snd =
      (m.hasIDB || (m.hasLS && lsDeleteSucceeds m.ls fileId)) := by
  cases hidb : m.hasIDB with
  | true =>
    have hbs : m.backends = BackendRef.idb :: (if m.hasLS then [BackendRef.ls] else []) := by
      rw [ManagerState.backends, hidb]
      simp
    rw [managerDeleteFile, hbs, deleteLoop_cons, idbDelete_ok]
    simp only [exceptIsOk, Bool.false_or]
    rw [deleteLoop_stays_true]
    simp
  | false =>
    cases hls : m.hasLS with
    | true =>
      have hbs : m.backends = [BackendRef.ls] := by
        rw [ManagerState.backends, hidb, hls]
        simp
      rw [managerDeleteFile, hbs, deleteLoop_cons]
      have hsnd : (backendDeleteFile m BackendRef.ls fileId).snd =
          (lsDeleteFile fileId m.ls).snd := rfl
      rw [hsnd]
      rw [managerDeleteFileLoop]
      simp [lsDelete_ok_iff]
    | false =>
      have hbs : m.backends = [] := by
        rw [ManagerState.backends, hidb, hls]
        simp
      rw [managerDeleteFile, hbs, managerDeleteFileLoop]
      simp

/-! ## C8: image-compression policy on store -/

/-- C8: the store pipeline hands exactly the images strictly over 500 KiB to
the compressor; the compressed output replaces the original only when the
encoder produced a blob strictly smaller than the original, and in every
other case (non-image, image at or under the threshold, blob not strictly
smaller, or no blob) the original bytes continue unchanged. -/
theorem storeFile_image_compression (enc : JSFile → Option Bytes) (file : JSFile) :
    (¬ (strStarts file.type "image/" = true ∧ 500 * 1024 < file.size) →
        processedForStore enc file = file) ∧
    ((strStarts file.type "image/" = true ∧ 500 * 1024 < file.size) →
        processedForStore enc file = compressImage enc file) ∧
    (∀ blob, enc file = some blob → blob.length < file.size →
        compressImage enc file = { name := file.name, type := "image/jpeg", data := blob }) ∧
    (∀ blob, enc file = some blob → ¬ blob.length < file.size →
        compressImage enc file = file) ∧
    (enc file = none → compressImage enc file = file) := by
  refine ⟨?_, ?_, ?_, ?_, ?_⟩
  · intro h
    rw [processedForStore, if_neg h]
  · intro h
    rw [processedForStore, if_pos h]
  · intro blob henc hlt
    rw [compressImage, henc]
    simp [if_pos hlt]
  · intro blob henc hge
    rw [compressImage, henc]
    simp [if_neg hge]
  · intro hnone
    rw [compressImage, hnone]

/-- Witness for C8: a 513-KiB PNG whose encoder emits a 1-byte blob is
replaced by the compressed jpeg payload. -/
theorem storeFile_image_compression_witness :
    processedForStore (fun _ => some [7])
      { name := "pic", type := "image/png", data := List.replicate (500 * 1024 + 1) 0 } =
      { name := "pic", type := "image/jpeg", data := [7] } := by
  have h := storeFile_image_compression (fun _ => some [7])
    { name := "pic", type := "image/png", data := List.replicate (500 * 1024 + 1) 0 }
  have hsz : (500 * 1024 : Nat) <
      ({ name := "pic", type := "image/png",
         data := List.replicate (500 * 1024 + 1) 0 } : JSFile).size := by
    show (500 * 1024 : Nat) < (List.replicate (500 * 1024 + 1) (0:Nat)).length
    rw [List.length_replicate]
    norm_num
  have h2 := h.2.1 ⟨by decide, hsz⟩
  have h3 := h.2.2.1 [7] rfl (by
    show (1:Nat) < (List.replicate (500 * 1024 + 1) (0:Nat)).length
    rw [List.length_replicate]
    norm_num)
  rw [h2, h3]

/-! ## C10: storage stats percentage -/

/-- C10: `getStorageStats` reports `usedPercentage` as the user's summed
stored bytes over the fixed constant 1 GiB = 2^30 (no backend capacity or
host quota appears in it), capped at 100, and rounded to one decimal place;
consequently it never exceeds 100 and is always a multiple of 1/10. -/
theorem getStorageStats_usedPercentage (m : ManagerState) (username : String) :
    ((managerGetStorageStats m username).usedPercentage =
      toFixed1 (min ((((managerGetUserFiles m username).map
          (fun f => f.size)).sum * 100 : ℚ) / 2 ^ 30) 100)) ∧
    (managerGetStorageStats m username).usedPercentage ≤ 100 ∧
    (∃ n : ℤ, (managerGetStorageStats m username).usedPercentage = (n : ℚ) / 10) := by
  have hfold : ∀ l : List Nat, l.foldl (fun a b => a + b) 0 = l.sum := by
    intro l
    rw [List.sum_eq_foldl]
  have heq : (managerGetStorageStats m username).usedPercentage =
      toFixed1 (min ((((managerGetUserFiles m username).map
          (fun f => f.size)).sum * 100 : ℚ) / 2 ^ 30) 100) := by
    rw [managerGetStorageStats]
    simp only [hfold]
    congr 2
    push_cast
    ring
  refine ⟨heq, ?_, ?_⟩
  · rw [heq, toFixed1]
    set q : ℚ := min ((((managerGetUserFiles m username).map
        (fun f => f.size)).sum * 100 : ℚ) / 2 ^ 30) 100 with hq
    have hle : q ≤ 100 := min_le_right _ _
    have hfloor : ⌊q * 10 + 1 / 2⌋ ≤ 1000 := by
      have : q * 10 + 1 / 2 ≤ 1000 + 1 / 2 := by linarith
      calc ⌊q * 10 + 1 / 2⌋ ≤ ⌊(1000 : ℚ) + 1 / 2⌋ := Int.floor_le_floor this
        _ = 1000 := by norm_num [Int.floor_eq_iff]
      
    have : ((⌊q * 10 + 1 / 2⌋ : ℤ) : ℚ) ≤ 1000 := by exact_mod_cast hfloor
    linarith
  · exact ⟨⌊(min ((((managerGetUserFiles m username).map
        (fun f => f.size)).sum * 100 : ℚ) / 2 ^ 30) 100) * 10 + 1 / 2⌋, heq⟩

/-! ## C5: getUserFiles dedup -/

/-- Every entry surviving the dedup avoids the seen set and is the first
entry of the input that carries its id. -/
theorem dedupById_first_seen (l : List FileSummary) :
    ∀ seen, ∀ f ∈ dedupById seen l,
      f.id ∉ seen ∧ l.find? (fun g => g.id == f.id) = some f := by
  induction l with
  | nil => intro seen f hf; cases hf
  | cons a rest ih =>
    intro seen f hf
    by_cases ha : a.id ∈ seen
    · rw [dedupById, if_pos ha] at hf
      rcases ih seen f hf with ⟨hns, hfind⟩
      refine ⟨hns, ?_⟩
      have hne : (a.id == f.id) = false := by
        cases hbe : (a.id == f.id) with
        | false => rfl
        | true =>
          exact absurd (beq_iff_eq.mp hbe ▸ ha) hns
      rw [find?_cons_neg (fun g => g.id == f.id) a rest hne]
      exact hfind
    · rw [dedupById, if_neg ha] at hf
      rcases List.mem_cons.mp hf with hfa | hftail
      · subst hfa
        exact ⟨ha, find?_cons_pos _ _ _ (by simp)⟩
      · rcases ih (seen ++ [a.id]) f hftail with ⟨hns, hfind⟩
        have hfa : f.id ≠ a.id := by
          intro hcontra
          exact hns (by simp [hcontra])
        refine ⟨fun hc => hns (by simp [hc]), ?_⟩
        have hne : (a.id == f.id) = false := by
          cases hbe : (a.id == f.id) with
          | false => rfl
          | true => exact absurd (beq_iff_eq.mp hbe).symm hfa
        rw [find?_cons_neg (fun g => g.id == f.id) a rest hne]
        exact hfind

/-- The surviving ids are pairwise distinct. -/
theorem dedupById_nodup (l : List FileSummary) :
    ∀ seen, ((dedupById seen l).map (fun f => f.id)).Nodup := by
  induction l with
  | nil => intro seen; simp [dedupById]
  | cons a rest ih =>
    intro seen
    by_cases ha : a.id ∈ seen
    · rw [dedupById, if_pos ha]
      exact ih seen
    · rw [dedupById, if_neg ha]
      rw [List.map_cons, List.nodup_cons]
      refine ⟨?_, ih (seen ++ [a.id])⟩
      intro hmem
      rcases List.mem_map.mp hmem with ⟨g, hg, hgid⟩
      rcases dedupById_first_seen rest (seen ++ [a.id]) g hg with ⟨hns, _⟩
      exact hns (by simp [hgid])

/-- Every input entry's id is represented in the output (or was already
seen). -/
theorem dedupById_covers (l : List FileSummary) :
    ∀ seen, ∀ f ∈ l, f.id ∈ seen ∨ ∃ g ∈ dedupById seen l, g.id = f.id := by
  induction l with
  | nil => intro seen f hf; cases hf
  | cons a rest ih =>
    intro seen f hf
    by_cases ha : a.id ∈ seen
    · rw [dedupById, if_pos ha]
      rcases List.mem_cons.mp hf with hfa | hftail
      · subst hfa
        exact Or.inl ha
      · exact ih seen f hftail
    · rw [dedupById, if_neg ha]
      rcases List.mem_cons.mp hf with hfa | hftail
      · subst hfa
        exact Or.inr ⟨f, List.mem_cons_self _ _, rfl⟩
      · rcases ih (seen ++ [a.id]) f hftail with hseen | ⟨g, hg, hgid⟩
        · rcases List.mem_append.mp hseen with h1 | h1
          · exact Or.inl h1
          · simp only [List.mem_singleton] at h1
            exact Or.inr ⟨a, List.mem_cons_self _ _, h1.symm⟩
        · exact Or.inr ⟨g, List.mem_cons_of_mem _ hg, hgid⟩

/-- C5: `getUserFiles` never returns two entries with the same id; each
returned entry is the first entry with its id in the backend-order
concatenation of per-backend results (earlier backend wins), and every id a
backend reported is represented. -/
theorem getUserFiles_no_duplicate_ids (m : ManagerState) (username : String) :
    (((managerGetUserFiles m username).map (fun f => f.id)).Nodup) ∧
    (∀ f ∈ managerGetUserFiles m username,
      (allBackendFiles m username).find? (fun g => g.id == f.id) = some f) ∧
    (∀ f ∈ allBackendFiles m username,
      ∃ g ∈ managerGetUserFiles m username, g.id = f.id) := by
  refine ⟨dedupById_nodup _ [], ?_, ?_⟩
  · intro f hf
    exact (dedupById_first_seen (allBackendFiles m username) [] f hf).2
  · intro f hf
    rcases dedupById_covers (allBackendFiles m username) [] f hf with hseen | hrep
    · cases hseen
    · exact hrep

/-! ## C6: getFile probe order -/

/-- When every backend in the list fails, the probe loop falls through to
the manager's own not-found error. -/
theorem getFileLoop_all_error (m : ManagerState) (fileId : String) (bs : List BackendRef)
    (h : ∀ b ∈ bs, ∃ e, backendGetFile m b fileId = Except.error e) :
    managerGetFileLoop m fileId bs = Except.error "File not found in any storage backend" := by
  induction bs with
  | nil => rfl
  | cons b rest ih =>
    rcases h b (by simp) with ⟨e, he⟩
    rw [managerGetFileLoop, he]
    exact ih (fun b' hb' => h b' (by simp [hb']))

/-- A hit after any stretch of failing backends is returned unchanged. -/
theorem getFileLoop_first_hit (m : ManagerState) (fileId : String) (bs1 : List BackendRef)
    (b : BackendRef) (bs2 : List BackendRef) (f : FileOut)
    (h1 : ∀ b' ∈ bs1, ∃ e, backendGetFile m b' fileId = Except.error e)
    (hb : backendGetFile m b fileId = Except.ok f) :
    managerGetFileLoop m fileId (bs1 ++ b :: bs2) = Except.ok f := by
  induction bs1 with
  | nil =>
    rw [List.nil_append, managerGetFileLoop, hb]
  | cons c rest ih =>
    rcases h1 c (by simp) with ⟨e, he⟩
    rw [List.cons_append, managerGetFileLoop, he]
    exact ih (fun b' hb' => h1 b' (by simp [hb']))

/-- C6: `getFile` probes the backends in preference order and returns the
first backend's hit, even when every earlier backend failed (per-backend
failures are isolated); when no backend has the id it fails with its fixed
human-readable not-found message, never with a partial result. -/
theorem managerGetFile_first_hit (m : ManagerState) (fileId : String) :
    ((∀ b ∈ m.backends, ∃ e, backendGetFile m b fileId = Except.error e) →
      managerGetFile m fileId = Except.error "File not found in any storage backend") ∧
    (∀ bs1 b bs2 f, m.backends = bs1 ++ b :: bs2 →
      (∀ b' ∈ bs1, ∃ e, backendGetFile m b' fileId = Except.error e) →
      backendGetFile m b fileId = Except.ok f →
      managerGetFile m fileId = Except.ok f) := by
  constructor
  · intro h
    rw [managerGetFile]
    exact getFileLoop_all_error m fileId m.backends h
  · intro bs1 b bs2 f hbs h1 hb
    rw [managerGetFile, hbs]
    exact getFileLoop_first_hit m fileId bs1 b bs2 f h1 hb

/-! ## C9: IndexedDB files/metadata pairing -/

/-- The pairing invariant of the IndexedDB backend: every record of the
`files` store has a `metadata` record under the same id. -/
def idbPaired (st : IDBState) : Prop :=
  ∀ r ∈ st.files, ∃ md ∈ st.metadata, md.id = r.id

/-- C9: both stores are written and deleted together, so every operation
preserves the pairing invariant (`storeFile` commits both records or —
when the transaction rejects — neither; `deleteFile` removes the id from
both stores), and under the invariant `getFile`'s unguarded
`metadata.metadata` dereference is safe: a present file record always
yields a resolved result, never the TypeError path. -/
theorem idb_files_metadata_paired (fileId now username : String) (file : JSFile)
    (category : String) (mgrMeta : MgrMeta) (st : IDBState) (h : idbPaired st) :
    idbPaired (idbStoreFile fileId now username file category mgrMeta st).fst ∧
    idbPaired (idbDeleteFile fileId st).fst ∧
    ((idbDeleteFile fileId st).fst.files.find? (fun r => r.id == fileId) = none ∧
     (idbDeleteFile fileId st).fst.metadata.find? (fun r => r.id == fileId) = none) ∧
    (∀ fd, st.files.find? (fun r => r.id == fileId) = some fd →
      ∃ out, idbGetFile fileId st = Except.ok out) := by
  refine ⟨?_, ?_, ⟨?_, ?_⟩, ?_⟩
  · rw [idbStoreFile]
    by_cases hdup : (st.files.any (fun r => r.id == fileId) ||
        st.metadata.any (fun r => r.id == fileId)) = true
    · rw [if_pos hdup]
      exact h
    · rw [if_neg hdup]
      intro r hr
      rcases List.mem_append.mp hr with hr1 | hr2
      · rcases h r hr1 with ⟨md, hmd, hid⟩
        exact ⟨md, List.mem_append.mpr (Or.inl hmd), hid⟩
      · simp only [List.mem_singleton] at hr2
        subst hr2
        refine ⟨{ id := fileId, username := username,
                  metadata := { mgr := mgrMeta, filename := file.name, size := file.size,
                                filetype := file.type },
                  category := category, uploadDate := now }, ?_, rfl⟩
        exact List.mem_append.mpr (Or.inr (by simp))
  · intro r hr
    simp only [idbDeleteFile] at hr
    have hr' := List.mem_filter.mp hr
    rcases h r hr'.1 with ⟨md, hmd, hid⟩
    refine ⟨md, ?_, hid⟩
    simp only [idbDeleteFile]
    refine List.mem_filter.mpr ⟨hmd, ?_⟩
    rw [hid]
    exact hr'.2
  · rw [List.find?_eq_none]
    intro x hx
    simp only [idbDeleteFile] at hx
    have := (List.mem_filter.mp hx).2
    simpa using this
  · rw [List.find?_eq_none]
    intro x hx
    simp only [idbDeleteFile] at hx
    have := (List.mem_filter.mp hx).2
    simpa using this
  · intro fd hfd
    have hpred := List.find?_some hfd
    have hmem := List.mem_of_find?_eq_some hfd
    rcases h fd hmem with ⟨md, hmdmem, hmdid⟩
    have hsome : (st.metadata.find? (fun r => r.id == fileId)).isSome := by
      rw [List.find?_isSome]
      exact ⟨md, hmdmem, by rw [hmdid]; exact hpred⟩
    rcases Option.isSome_iff_exists.mp hsome with ⟨md', hmd'⟩
    refine ⟨{ id := fd.id, filename := md'.metadata.filename,
              filetype := md'.metadata.filetype, size := md'.metadata.size,
              category := fd.category, uploadDate := fd.uploadDate,
              username := fd.username, metadata := md'.metadata, blob := fd.data }, ?_⟩
    unfold idbGetFile
    rw [hfd, hmd']

/-! ## Concrete example data for the witnesses -/

/-- An empty caller metadata object. -/
def exExtra : ExtraMeta :=
  { intelligentAnalysis := none, description := none, jsonFormat := none, rest := [] }

/-- A manager metadata tag as `storeFile` would attach for a small
uncompressed file. -/
def exMgrMeta : MgrMeta :=
  { extra := exExtra, originalSize := 3, compressed := false, directory := "/files/" }

/-- A persisted metadata record body. -/
def exMeta : MetaMap := { mgr := exMgrMeta, filename := "a", size := 3, filetype := "t" }

/-- An IndexedDB metadata record with id `"x"`. -/
def exIdbMetaRec : IDBMetaRec :=
  { id := "x", username := "u", metadata := exMeta, category := "C", uploadDate := "t0" }

/-- A localStorage record that shares id `"x"` with `exIdbMetaRec`. -/
def exLsRec : LSFileRec :=
  { id := "x", filename := "b", filetype := "t", size := 4, category := "C",
    uploadDate := "t1", username := "u", metadata := exMeta, data := [9] }

/-- A manager in which both backends hold a file with the same id `"x"`. -/
def mgrC5 : ManagerState :=
  { hasIDB := true, hasLS := true,
    idb := { files := [], metadata := [exIdbMetaRec] },
    ls := { files := [("u", [exLsRec])],
            index := [("x", { username := "u", backend := "localStorage" })] } }

/-- Witness for C5: with id `"x"` present in both backends, the merged list
has pairwise-distinct ids and the IndexedDB (earlier backend) entry is the
one returned for `"x"`. -/
theorem getUserFiles_no_duplicate_ids_witness :
    ((managerGetUserFiles mgrC5 "u").map (fun f => f.id)).Nodup ∧
    (allBackendFiles mgrC5 "u").find? (fun g => g.id == (idbSummary exIdbMetaRec).id) =
      some (idbSummary exIdbMetaRec) :=
  ⟨(getUserFiles_no_duplicate_ids mgrC5 "u").1,
   (getUserFiles_no_duplicate_ids mgrC5 "u").2.1 (idbSummary exIdbMetaRec) (by decide)⟩

/-- A localStorage record with id `"f6"` for the C6 witness. -/
def lsRecC6 : LSFileRec :=
  { id := "f6", filename := "n", filetype := "t", size := 1, category := "C",
    uploadDate := "t1", username := "u", metadata := exMeta, data := [5] }

/-- A manager whose IndexedDB store is empty (probing it fails) while
localStorage holds `"f6"`. -/
def mgrC6 : ManagerState :=
  { hasIDB := true, hasLS := true,
    idb := { files := [], metadata := [] },
    ls := { files := [("u", [lsRecC6])],
            index := [("f6", { username := "u", backend := "localStorage" })] } }

/-- The output `getFile("f6")` resolves with on `mgrC6`. -/
def outC6 : FileOut :=
  { id := "f6", filename := "n", filetype := "t", size := 1, category := "C",
    uploadDate := "t1", username := "u", metadata := exMeta, blob := [5] }

/-- Witness for C6: the IndexedDB probe fails, yet the localStorage hit is
returned. -/
theorem managerGetFile_first_hit_witness :
    managerGetFile mgrC6 "f6" = Except.ok outC6 :=
  (managerGetFile_first_hit mgrC6 "f6").2 [BackendRef.idb] BackendRef.ls [] outC6 rfl
    (fun b' hb' => by
      simp only [List.mem_singleton] at hb'
      subst hb'
      exact ⟨"File not found in IndexedDB", rfl⟩)
    rfl

/-- An IndexedDB file record paired with `exIdbMetaRec` under id `"x"`. -/
def idbFileRecC9 : IDBFileRec :=
  { id := "x", filename := "a", filetype := "t", size := 3, category := "C",
    uploadDate := "t0", username := "u", data := [1, 2, 3] }

/-- A paired IndexedDB state holding id `"x"` in both stores. -/
def stC9 : IDBState := { files := [idbFileRecC9], metadata := [exIdbMetaRec] }

/-- Witness for C9: on a concrete paired state, `getFile` of a present id
resolves. -/
theorem idb_files_metadata_paired_witness :
    ∃ out, idbGetFile "x" stC9 = Except.ok out :=
  (idb_files_metadata_paired "x" "t0" "u" { name := "a", type := "t", data := [1, 2, 3] }
      "C" exMgrMeta stC9 (by unfold idbPaired; decide)).2.2.2 idbFileRecC9 (by decide)

/-! ## C1: store/fetch round-trip -/

theorem bool_neg_true {b : Bool} (h : (!b) = true) : b = false := by
  cases b
  · rfl
  · cases h

/-- The selection rule evaluates to the head of the backend array: the
first branch returns `backends[0]` whenever any backend exists, and every
other branch requires `backends[0]` to be absent, which for an array forces
`backends[1]` absent as well. -/
theorem selectBackend_head (bs : List BackendRef) (size : Nat) :
    selectBackendForFile bs size = bs[0]? := by
  cases bs with
  | nil => simp [selectBackendForFile]
  | cons b rest => simp [selectBackendForFile]

/-- Storing a fresh id in IndexedDB commits both records, resolves the
summary, and an immediate `getFile` of that id returns the stored payload
with the persisted metadata. -/
theorem idb_store_get (fileId now username : String) (f2 : JSFile) (category : String)
    (mgrMeta : MgrMeta) (st : IDBState)
    (hf : ∀ a ∈ st.files, (a.id == fileId) = false)
    (hm : ∀ a ∈ st.metadata, (a.id == fileId) = false) :
    idbGetFile fileId (idbStoreFile fileId now username f2 category mgrMeta st).fst =
      Except.ok { id := fileId, filename := f2.name, filetype := f2.type, size := f2.size,
                  category := category, uploadDate := now, username := username,
                  metadata := { mgr := mgrMeta, filename := f2.name, size := f2.size,
                                filetype := f2.type },
                  blob := f2.data } ∧
    (idbStoreFile fileId now username f2 category mgrMeta st).snd =
      Except.ok { id := fileId, filename := f2.name, filetype := f2.type, size := f2.size,
                  category := category, uploadDate := now, username := username,
                  metadata := mgrMeta, storage := "IndexedDB", dataOpt := none } := by
  have hcond : ¬ ((st.files.any (fun a => a.id == fileId) ||
      st.metadata.any (fun a => a.id == fileId)) = true) := by
    rw [Bool.or_eq_true]
    rintro (hx | hx)
    · rcases List.any_eq_true.mp hx with ⟨a, ha, hpa⟩
      rw [hf a ha] at hpa
      cases hpa
    · rcases List.any_eq_true.mp hx with ⟨a, ha, hpa⟩
      rw [hm a ha] at hpa
      cases hpa
  unfold idbStoreFile
  rw [if_neg hcond]
  constructor
  · unfold idbGetFile
    dsimp only
    rw [find?_append_last (fun a => a.id == fileId) st.files _ hf]
    simp only [beq_self_eq_true, if_true]
    rw [find?_append_last (fun a => a.id == fileId) st.metadata _ hm]
    simp only [beq_self_eq_true, if_true]
  · rfl

/-- Storing a fresh id below the size cap in localStorage appends the
record, indexes the id, resolves the record, and an immediate `getFile`
returns the stored payload with the persisted metadata. -/
theorem ls_store_get (fileId now username : String) (f2 : JSFile) (category : String)
    (mgrMeta : MgrMeta) (st : LSState)
    (harr : ∀ f ∈ lsGetUserArr st username, (f.id == fileId) = false)
    (hsz : ¬ (lsMaxFileSize < f2.size)) :
    lsGetFile fileId (lsStoreFile fileId now username f2 category mgrMeta st).fst =
      Except.ok { id := fileId, filename := f2.name, filetype := f2.type, size := f2.size,
                  category := category, uploadDate := now, username := username,
                  metadata := { mgr := mgrMeta, filename := f2.name, size := f2.size,
                                filetype := f2.type },
                  blob := f2.data } ∧
    (lsStoreFile fileId now username f2 category mgrMeta st).snd =
      Except.ok { id := fileId, filename := f2.name, filetype := f2.type, size := f2.size,
                  category := category, uploadDate := now, username := username,
                  metadata := mgrMeta, storage := "LocalStorage",
                  dataOpt := some f2.data } := by
  unfold lsStoreFile
  rw [if_neg hsz]
  constructor
  · unfold lsGetFile
    dsimp only
    rw [assocSet_find st.index fileId
      { username := username, backend := "localStorage" }]
    simp only [beq_self_eq_true, if_true]
    have harr' : lsGetUserArr
        { files := assocSet st.files username (lsGetUserArr st username ++
            [{ id := fileId, filename := f2.name, filetype := f2.type, size := f2.size,
               category := category, uploadDate := now, username := username,
               metadata := { mgr := mgrMeta, filename := f2.name, size := f2.size,
                             filetype := f2.type },
               data := f2.data }]),
          index := assocSet st.index fileId
            { username := username, backend := "localStorage" } } username =
        lsGetUserArr st username ++
            [{ id := fileId, filename := f2.name, filetype := f2.type, size := f2.size,
               category := category, uploadDate := now, username := username,
               metadata := { mgr := mgrMeta, filename := f2.name, size := f2.size,
                             filetype := f2.type },
               data := f2.data }] := by
      unfold lsGetUserArr
      dsimp only
      rw [assocSet_find st.files username _]
    rw [harr']
    rw [find?_append_last (fun f => f.id == fileId) (lsGetUserArr st username) _ harr]
    simp only [beq_self_eq_true, if_true]
  · rfl

/-- C1: a file stored through the manager under a fresh id and immediately
fetched by the returned record's id resolves, and the fetched payload is
byte-for-byte the payload the manager stored — the processed file, which
differs from the original exactly when image compression was applied — and
the original size is retrievable from the record's metadata
(`originalSize`); in particular, when no compression was applied the
payload equals the original bytes. -/
theorem storeFile_roundtrip (enc : JSFile → Option Bytes) (fileId now username : String)
    (file : JSFile) (category : String) (extra : ExtraMeta) (m m' : ManagerState)
    (r : StoreRes) (hfresh : isFreshId m fileId = true)
    (hstore : managerStoreFile enc fileId now username file category extra m =
      (m', Except.ok r)) :
    ∃ out, managerGetFile m' r.id = Except.ok out ∧
      out.blob = (processedForStore enc file).data ∧
      out.metadata.mgr.originalSize = file.size ∧
      (processedForStore enc file = file → out.blob = file.data) := by
  simp only [isFreshId, Bool.and_eq_true] at hfresh
  obtain ⟨⟨⟨hfr1, hfr2⟩, hfr3⟩, hfr4⟩ := hfresh
  have hidbf : ∀ a ∈ m.idb.files, (a.id == fileId) = false :=
    fun a ha => bool_neg_true (List.all_eq_true.mp hfr1 a ha)
  have hidbm : ∀ a ∈ m.idb.metadata, (a.id == fileId) = false :=
    fun a ha => bool_neg_true (List.all_eq_true.mp hfr2 a ha)
  have hlsarr : ∀ f ∈ lsGetUserArr m.ls username, (f.id == fileId) = false := by
    intro f hf
    rw [lsGetUserArr] at hf
    cases hfind : m.ls.files.find? (fun p => p.fst == username) with
    | none => rw [hfind] at hf; cases hf
    | some p =>
      rw [hfind] at hf
      exact bool_neg_true
        (List.all_eq_true.mp
          (List.all_eq_true.mp hfr4 p (List.mem_of_find?_eq_some hfind)) f hf)
  simp only [managerStoreFile] at hstore
  rw [selectBackend_head] at hstore
  cases hidb : m.hasIDB with
  | true =>
    have hhead : m.backends[0]? = some BackendRef.idb := by
      rw [ManagerState.backends, hidb]
      simp
    rw [hhead] at hstore
    have hstore' :
        ({ m with idb := (idbStoreFile fileId now username (processedForStore enc file)
              category
              { extra := extra, originalSize := file.size,
                compressed := decide (processedForStore enc file ≠ file),
                directory := determineDirectory category extra } m.idb).fst },
         (idbStoreFile fileId now username (processedForStore enc file) category
              { extra := extra, originalSize := file.size,
                compressed := decide (processedForStore enc file ≠ file),
                directory := determineDirectory category extra } m.idb).snd) =
          (m', Except.ok r) := hstore
    rw [Prod.mk.injEq] at hstore'
    obtain ⟨hm', hr⟩ := hstore'
    have hig := idb_store_get fileId now username (processedForStore enc file) category
      { extra := extra, originalSize := file.size,
        compressed := decide (processedForStore enc file ≠ file),
        directory := determineDirectory category extra } m.idb hidbf hidbm
    have hrr := Except.ok.inj (hig.2.symm.trans hr)
    subst hm'
    refine ⟨{ id := fileId, filename := (processedForStore enc file).name,
              filetype := (processedForStore enc file).type,
              size := (processedForStore enc file).size,
              category := category, uploadDate := now, username := username,
              metadata := { mgr := { extra := extra, originalSize := file.size,
                                     compressed := decide (processedForStore enc file ≠ file),
                                     directory := determineDirectory category extra },
                            filename := (processedForStore enc file).name,
                            size := (processedForStore enc file).size,
                            filetype := (processedForStore enc file).type },
              blob := (processedForStore enc file).data }, ?_, rfl, rfl,
            fun hpf => congrArg JSFile.data hpf⟩
    have hrid : r.id = fileId := by
      rw [← hrr]
    rw [hrid, managerGetFile]
    have hbsA : ManagerState.backends
        { m with idb := (idbStoreFile fileId now username (processedForStore enc file)
            category
            { extra := extra, originalSize := file.size,
              compressed := decide (processedForStore enc file ≠ file),
              directory := determineDirectory category extra } m.idb).fst } =
        BackendRef.idb :: (if m.hasLS then [BackendRef.ls] else []) := by
      rw [ManagerState.backends]
      simp [hidb]
    rw [hbsA, managerGetFileLoop]
    have hbg : backendGetFile
        { m with idb := (idbStoreFile fileId now username (processedForStore enc file)
            category
            { extra := extra, originalSize := file.size,
              compressed := decide (processedForStore enc file ≠ file),
              directory := determineDirectory category extra } m.idb).fst }
        BackendRef.idb fileId =
        Except.ok
          { id := fileId, filename := (processedForStore enc file).name,
            filetype := (processedForStore enc file).type,
            size := (processedForStore enc file).size,
            category := category, uploadDate := now, username := username,
            metadata := { mgr := { extra := extra, originalSize := file.size,
                                   compressed := decide (processedForStore enc file ≠ file),
                                   directory := determineDirectory category extra },
                          filename := (processedForStore enc file).name,
                          size := (processedForStore enc file).size,
                          filetype := (processedForStore enc file).type },
            blob := (processedForStore enc file).data } := hig.1
    rw [hbg]
  | false =>
    cases hls : m.hasLS with
    | true =>
      have hhead : m.backends[0]? = some BackendRef.ls := by
        rw [ManagerState.backends, hidb, hls]
        simp
      rw [hhead] at hstore
      have hstore' :
          ({ m with ls := (lsStoreFile fileId now username (processedForStore enc file)
                category
                { extra := extra, originalSize := file.size,
                  compressed := decide (processedForStore enc file ≠ file),
                  directory := determineDirectory category extra } m.ls).fst },
           (lsStoreFile fileId now username (processedForStore enc file) category
                { extra := extra, originalSize := file.size,
                  compressed := decide (processedForStore enc file ≠ file),
                  directory := determineDirectory category extra } m.ls).snd) =
            (m', Except.ok r) := hstore
      rw [Prod.mk.injEq] at hstore'
      obtain ⟨hm', hr⟩ := hstore'
      by_cases hsz : lsMaxFileSize < (processedForStore enc file).size
      · exfalso
        have hsnd : (lsStoreFile fileId now username (processedForStore enc file) category
            { extra := extra, originalSize := file.size,
              compressed := decide (processedForStore enc file ≠ file),
              directory := determineDirectory category extra } m.ls).snd =
            Except.error "File too large for localStorage. Max: 5 MB" := by
          unfold lsStoreFile
          rw [if_pos hsz]
        rw [hsnd] at hr
        cases hr
      · have hlg := ls_store_get fileId now username (processedForStore enc file) category
          { extra := extra, originalSize := file.size,
            compressed := decide (processedForStore enc file ≠ file),
            directory := determineDirectory category extra } m.ls hlsarr hsz
        have hrr := Except.ok.inj (hlg.2.symm.trans hr)
        subst hm'
        refine ⟨{ id := fileId, filename := (processedForStore enc file).name,
                  filetype := (processedForStore enc file).type,
                  size := (processedForStore enc file).size,
                  category := category, uploadDate := now, username := username,
                  metadata := { mgr := { extra := extra, originalSize := file.size,
                                         compressed := decide (processedForStore enc file ≠ file),
                                         directory := determineDirectory category extra },
                                filename := (processedForStore enc file).name,
                                size := (processedForStore enc file).size,
                                filetype := (processedForStore enc file).type },
                  blob := (processedForStore enc file).data }, ?_, rfl, rfl,
                fun hpf => congrArg JSFile.data hpf⟩
        have hrid : r.id = fileId := by
          rw [← hrr]
        rw [hrid, managerGetFile]
        have hbsA : ManagerState.backends
            { m with ls := (lsStoreFile fileId now username (processedForStore enc file)
                category
                { extra := extra, originalSize := file.size,
                  compressed := decide (processedForStore enc file ≠ file),
                  directory := determineDirectory category extra } m.ls).fst } =
            [BackendRef.ls] := by
          rw [ManagerState.backends]
          simp [hidb, hls]
        rw [hbsA, managerGetFileLoop]
        have hbg : backendGetFile
            { m with ls := (lsStoreFile fileId now username (processedForStore enc file)
                category
                { extra := extra, originalSize := file.size,
                  compressed := decide (processedForStore enc file ≠ file),
                  directory := determineDirectory category extra } m.ls).fst }
            BackendRef.ls fileId =
            Except.ok
              { id := fileId, filename := (processedForStore enc file).name,
                filetype := (processedForStore enc file).type,
                size := (processedForStore enc file).size,
                category := category, uploadDate := now, username := username,
                metadata := { mgr := { extra := extra, originalSize := file.size,
                                       compressed := decide (processedForStore enc file ≠ file),
                                       directory := determineDirectory category extra },
                              filename := (processedForStore enc file).name,
                              size := (processedForStore enc file).size,
                              filetype := (processedForStore enc file).type },
                blob := (processedForStore enc file).data } := hlg.1
        rw [hbg]
    | false =>
      have hhead : m.backends[0]? = none := by
        rw [ManagerState.backends, hidb, hls]
        simp
      rw [hhead] at hstore
      have hstore' : ((m, Except.error "TypeError: cannot read properties of undefined") :
          ManagerState × Except String StoreRes) = (m', Except.ok r) := hstore
      have := congrArg Prod.snd hstore'
      cases this

/-- The empty two-backend manager for the C1 witness. -/
def mgrC1 : ManagerState :=
  { hasIDB := true, hasLS := true, idb := { files := [], metadata := [] },
    ls := { files := [], index := [] } }

/-- A small non-image file for the C1 witness. -/
def fileC1 : JSFile := { name := "a", type := "t", data := [1, 2, 3] }

/-- The manager state after storing `fileC1` under id `"f1"`. -/
def mgrC1' : ManagerState :=
  { hasIDB := true, hasLS := true,
    idb := { files := [{ id := "f1", filename := "a", filetype := "t", size := 3,
                         category := "C", uploadDate := "t0", username := "u",
                         data := [1, 2, 3] }],
             metadata := [{ id := "f1", username := "u",
                            metadata := { mgr := { extra := exExtra, originalSize := 3,
                                                   compressed := false,
                                                   directory := "/files/" },
                                          filename := "a", size := 3, filetype := "t" },
                            category := "C", uploadDate := "t0" }] },
    ls := { files := [], index := [] } }

/-- The record `storeFile` resolves with in the C1 witness run. -/
def resC1 : StoreRes :=
  { id := "f1", filename := "a", filetype := "t", size := 3, category := "C",
    uploadDate := "t0", username := "u",
    metadata := { extra := exExtra, originalSize := 3, compressed := false,
                  directory := "/files/" },
    storage := "IndexedDB", dataOpt := none }

/-- Witness for C1: storing `fileC1` in the empty manager and fetching it
back returns its exact bytes, with `originalSize` in the metadata. -/
theorem storeFile_roundtrip_witness :
    ∃ out, managerGetFile mgrC1' resC1.id = Except.ok out ∧
      out.blob = (processedForStore (fun _ => none) fileC1).data ∧
      out.metadata.mgr.originalSize = fileC1.size ∧
      (processedForStore (fun _ => none) fileC1 = fileC1 → out.blob = fileC1.data) :=
  storeFile_roundtrip (fun _ => none) "f1" "t0" "u" fileC1 "C" exExtra mgrC1 mgrC1' resC1
    (by decide) rfl
